import Mathlib

/-!
Shallow embedding of the bkernel core (breactor reactor / mutex / promise,
the SPSC circular buffer, and the smalloc allocator) together with proofs
about the behaviour claimed in the natural-language specification.

Machine integers (`u32`, `u16`, `usize`) are modelled as `Nat` with explicit
reduction modulo `2^w` at the points where the Rust source narrows or wraps.
Fallible / diverging code paths (panics, fuel-bounded loops) are modelled
with `Option`.

The file is organised as definitions first (all subsystems), then theorems.
-/

namespace BKernel

/-! ## Bit-length helper

Rust's `u32::leading_zeros` for a value `m < 2^32` equals `32 - bitlen m`
where `bitlen` is the position of the highest set bit plus one.  We define
`bitlen` by structural recursion on a fuel argument so that it reduces in
the kernel. -/

def bitSizeAux : Nat → Nat → Nat
  | 0, _ => 0
  | fuel + 1, n => if n = 0 then 0 else bitSizeAux fuel (n / 2) + 1

/-- `leading_zeros` of a `u32` value (the source calls
`mask.leading_zeros()` on an `AtomicU32` load). -/
def leadingZeros32 (m : Nat) : Nat := 32 - bitSizeAux 32 m

/-! ## Reactor (src/breactor/src/lib.rs)

A task slot holds a future; the reactor advances it via `poll`.  We model a
future as a scripted stepper: the `n`-th poll returns the `n`-th entry of
`script` (or `done` when the script is exhausted).  The `polls` counter
and the reactor-level `polled` log are ghost state recording how many times
each computation has been advanced; the Rust source has no such counters,
they exist only so that "polls exactly once" is expressible. -/

inductive PollResult
  | notReady
  | done
  | failed
deriving DecidableEq

structure TaskSlot where
  polls : Nat
  script : List PollResult
deriving DecidableEq

/-- One call of `Future::poll` on the future stored in a slot. -/
def pollSlot (t : TaskSlot) : PollResult × TaskSlot :=
  (t.script.getD t.polls PollResult.done, { t with polls := t.polls + 1 })

structure ReactorState where
  current_task_mask : Nat
  ready_mask : Nat
  tasks : List (Option TaskSlot)
  /-- Ghost log of the slot indices polled so far (not in the source). -/
  polled : List Nat
deriving DecidableEq

/-- `Reactor::select_next_task`: highest set bit of `ready_mask`, via
leading zeros. -/
def selectNextTask (st : ReactorState) : Option Nat :=
  let zeros := leadingZeros32 st.ready_mask
  if zeros = 32 then none else some (31 - zeros)

/-- One iteration of the `while let` loop in `Reactor::run`: select the
next task, clear its ready bit (`fetch_and` with the complement), publish
its mask, and poll the slot (an empty slot is skipped).  Returns `none`
when `select_next_task` returns `None`, i.e. when `run` exits the loop. -/
def runStep (st : ReactorState) : Option ReactorState :=
  match selectNextTask st with
  | none => none
  | some task_id =>
    let task_mask := 2 ^ task_id
    let st1 : ReactorState :=
      { st with
        ready_mask := st.ready_mask &&& ((2 ^ 32 - 1) ^^^ task_mask),
        current_task_mask := task_mask }
    match st1.tasks.getD task_id none with
    | some slot =>
      let res := pollSlot slot
      some { st1 with
             tasks := st1.tasks.set task_id
               (match res.1 with
                | PollResult.notReady => some res.2
                | _ => none),
             polled := st1.polled ++ [task_id] }
    | none => some st1

/-- `Reactor::run`, fuel-bounded: iterate `runStep` until the loop exits. -/
def run : Nat → ReactorState → ReactorState
  | 0, st => st
  | fuel + 1, st =>
    match runStep st with
    | none => st
    | some st' => run fuel st'

/-- Index selected by one iteration of `Reactor::run` (31 minus the
leading-zero count of `ready_mask`). -/
def selectedId (st : ReactorState) : Nat := 31 - leadingZeros32 st.ready_mask

/-- What claim C1 asserts about one iteration of `Reactor::run` that found
`ready_mask ≠ 0` and moved the reactor from `st` to `st'`. -/
def RunStepPost (st st' : ReactorState) : Prop :=
  st.ready_mask.testBit (selectedId st) = true ∧
  (∀ j, st.ready_mask.testBit j = true → j ≤ selectedId st) ∧
  st'.ready_mask.testBit (selectedId st) = false ∧
  (∀ j, j ≠ selectedId st → st'.ready_mask.testBit j = st.ready_mask.testBit j) ∧
  st'.current_task_mask = 2 ^ selectedId st ∧
  ((st.tasks.getD (selectedId st) none).isSome = true →
    st'.polled = st.polled ++ [selectedId st]) ∧
  (st.tasks.getD (selectedId st) none = none → st'.polled = st.polled)

/-- Full statement of claim C1, as a predicate on the pre-state. -/
def RunStepSpec (st : ReactorState) : Prop :=
  (st.ready_mask = 0 → runStep st = none ∧ ∀ fuel, run fuel st = st) ∧
  (st.ready_mask ≠ 0 → ∃ st', runStep st = some st' ∧ RunStepPost st st')

/-! ## Circular buffer (src/dev/circular_buffer.rs)

A lock-free single-producer single-consumer ring buffer over a fixed-size
array.  The claims quantify over interleaved call sequences from one
producer and one consumer, which under the sequential-consistency
discipline of the source is a linear sequence of operations. -/

structure CircularBuffer (T : Type) where
  array : List T
  tail : Nat
  head : Nat
deriving DecidableEq

/-- `CircularBuffer::increment`: advance an index modulo the array
length. -/
def CircularBuffer.increment (cb : CircularBuffer T) (idx : Nat) : Nat :=
  (idx + 1) % cb.array.length

/-- `CircularBuffer::push`.  Returns whether the push was accepted and
the new buffer. -/
def CircularBuffer.push (cb : CircularBuffer T) (item : T) : Bool × CircularBuffer T :=
  let current_tail := cb.tail
  let next_tail := cb.increment current_tail
  if next_tail = cb.head then (false, cb)
  else (true, { cb with array := cb.array.set current_tail item, tail := next_tail })

/-- `CircularBuffer::pop`.  Returns the popped element (if any) and the
new buffer. -/
def CircularBuffer.pop [Inhabited T] (cb : CircularBuffer T) : Option T × CircularBuffer T :=
  let current_head := cb.head
  if current_head = cb.tail then (none, cb)
  else (some (cb.array.getD current_head default),
        { cb with head := cb.increment current_head })

inductive BufOp (T : Type)
  | push (v : T)
  | pop
deriving DecidableEq

/-- Run a sequence of interleaved push/pop calls.  Returns the final
buffer, the values accepted by successful pushes (in order), and the
values returned by successful pops (in order). -/
def runBufOps [Inhabited T] : CircularBuffer T → List (BufOp T) →
    CircularBuffer T × List T × List T
  | cb, [] => (cb, [], [])
  | cb, BufOp.push v :: ops =>
    let r := CircularBuffer.push cb v
    let rest := runBufOps r.2 ops
    (rest.1, (if r.1 then [v] else []) ++ rest.2.1, rest.2.2)
  | cb, BufOp.pop :: ops =>
    let r := CircularBuffer.pop cb
    let rest := runBufOps r.2 ops
    (rest.1, rest.2.1,
     (match r.1 with | some v => [v] | none => []) ++ rest.2.2)

/-- Abstraction invariant tying the ring buffer to the history:
`A` is the list of all values accepted so far, `k` the number of values
popped so far; the buffer holds `A[k..]` with `head`/`tail` the indices
of `k`/`A.length` modulo the capacity. -/
def BufInv [Inhabited T] (cb : CircularBuffer T) (A : List T) (k : Nat) : Prop :=
  0 < cb.array.length ∧
  k ≤ A.length ∧
  A.length - k < cb.array.length ∧
  cb.head = k % cb.array.length ∧
  cb.tail = A.length % cb.array.length ∧
  ∀ i, k ≤ i → i < A.length →
    cb.array.getD (i % cb.array.length) default = A.getD i default

/-! ## Mutex (src/breactor/src/mutex.rs)

Two atomic words: the wait set and the owner.  `LockFuture::poll` reads the
current task mask from the reactor, ORs it into the wait set, and tries a
`compare_and_swap(0, task)` on the owner.  `Mutex::release` stores 0 to the
owner, swaps the wait set with 0 and marks the swapped-out mask ready. -/

structure MutexState where
  wait_task_mask : Nat
  owner : Nat
deriving DecidableEq

/-- `Mutex::new`. -/
def mutexNew : MutexState := ⟨0, 0⟩

/-- `LockFuture::poll` with `task = REACTOR.get_current_task_mask()`.
Returns the new mutex state and `true` iff the poll returned
`Poll::Ready` (the CAS saw owner 0 and the lock was acquired). -/
def lockPoll (ms : MutexState) (task : Nat) : MutexState × Bool :=
  let ms1 : MutexState := { ms with wait_task_mask := ms.wait_task_mask ||| task }
  if ms1.owner = 0 then ({ ms1 with owner := task }, true) else (ms1, false)

/-- `Mutex::release` (run from `MutexLock::drop`), together with the
reactor interaction `set_ready_task_mask`.  Returns the new mutex state,
the new reactor `ready_mask`, and the woken (swapped-out) mask. -/
def mutexRelease (ms : MutexState) (ready : Nat) : MutexState × Nat × Nat :=
  let ms1 : MutexState := { ms with owner := 0 }
  let tasks := ms1.wait_task_mask
  let ms2 : MutexState := { ms1 with wait_task_mask := 0 }
  (ms2, if tasks ≠ 0 then ready ||| tasks else ready, tasks)

/-- State after a sequence of `LockFuture::poll`s by the task masks in
`ts` (in order). -/
def pollAll (ms : MutexState) (ts : List Nat) : MutexState :=
  ts.foldl (fun s t => (lockPoll s t).1) ms

/-! ## Promise (src/breactor/src/promise.rs) -/

/-- Rust's `Result<T, E>`. -/
inductive RResult (T E : Type)
  | ok (t : T)
  | err (e : E)
deriving DecidableEq

structure PromiseState (T E : Type) where
  task : Nat
  result : Option (RResult T E)
deriving DecidableEq

/-- `Promise::empty`: task word 0 and no value. -/
def promiseEmpty (T E : Type) : PromiseState T E := ⟨0, none⟩

/-- `Promise::new_task` (and `Promise::new`, whose task mask comes from
`REACTOR.get_current_task_mask()`). -/
def promiseNewTask (T E : Type) (task_mask : Nat) : PromiseState T E :=
  ⟨task_mask, none⟩

/-- `Promise::claim` with `task = REACTOR.get_current_task_mask()`. -/
def promiseClaim (p : PromiseState T E) (task : Nat) : PromiseState T E :=
  { p with task := task }

/-- `Promise::resolve`: store the value, swap the task word with 0, and
wake the swapped-out task.  Returns the new state and the woken mask. -/
def promiseResolve (p : PromiseState T E) (res : RResult T E) :
    PromiseState T E × Nat :=
  (⟨0, some res⟩, p.task)

/-- Outcome of `Future::poll` on a promise (`Ok(Async::Ready _)`,
`Err _`, or `Ok(Async::NotReady)`). -/
inductive PromisePollOut (T E : Type)
  | ready (t : T)
  | error (e : E)
  | notReady
deriving DecidableEq

/-- `Future::poll` for `Promise`: acquire-load `task`; if zero, take the
stored value (leaving `None`) and unwrap it — `none` models the `unwrap`
panic when the value is absent; otherwise report `NotReady`. -/
def promisePoll (p : PromiseState T E) : Option (PromisePollOut T E × PromiseState T E) :=
  if p.task = 0 then
    match p.result with
    | some (RResult.ok x) => some (PromisePollOut.ready x, { p with result := none })
    | some (RResult.err x) => some (PromisePollOut.error x, { p with result := none })
    | none => none
  else some (PromisePollOut.notReady, p)

/-- Promise state extended with a ghost flag recording whether the
consumer has already taken the currently stored value.  The flag is not in
the source; it makes the spec's "until the consumer reads it exactly
once" expressible as a state invariant. -/
structure PromiseGhost (T E : Type) where
  st : PromiseState T E
  consumed : Bool
deriving DecidableEq

def ghostEmpty (T E : Type) : PromiseGhost T E := ⟨promiseEmpty T E, false⟩

def ghostNewTask (T E : Type) (m : Nat) : PromiseGhost T E :=
  ⟨promiseNewTask T E m, false⟩

def ghostClaim (p : PromiseGhost T E) (m : Nat) : PromiseGhost T E :=
  ⟨promiseClaim p.st m, p.consumed⟩

def ghostResolve (p : PromiseGhost T E) (res : RResult T E) : PromiseGhost T E × Nat :=
  (⟨(promiseResolve p.st res).1, false⟩, (promiseResolve p.st res).2)

def ghostPoll (p : PromiseGhost T E) : Option (PromisePollOut T E × PromiseGhost T E) :=
  match promisePoll p.st with
  | none => none
  | some (out, st') => some (out, ⟨st', if p.st.task = 0 then true else p.consumed⟩)

/-- The invariant of claim C5: a nonzero task word means no stored value;
a zero task word means the value is present until the consumer has taken
it. -/
def PromiseInv (p : PromiseGhost T E) : Prop :=
  (p.st.task ≠ 0 → p.st.result = none) ∧
  (p.st.task = 0 → p.consumed = false → p.st.result ≠ none)

/-! ## smalloc (src/smalloc/lib.rs)

The allocator works on raw memory through `u16` and pointer loads/stores.
We model memory as byte-addressable (`Nat → Nat`), little-endian, with the
null pointer at address 0.  Sizes follow the 32-bit ARM target the kernel
is built for: `size_of::<*mut u8>() = 4`, `size_of::<BusyBlock>() = 4`
(two packed `u16`s), `size_of::<FreeBlock>() = 8`. -/

def Mem : Type := Nat → Nat

def store8 (m : Mem) (a v : Nat) : Mem := fun x => if x = a then v else m x

def load8 (m : Mem) (a : Nat) : Nat := m a % 256

def load16 (m : Mem) (a : Nat) : Nat := load8 m a + 256 * load8 m (a + 1)

def store16 (m : Mem) (a v : Nat) : Mem := store8 (store8 m a v) (a + 1) (v / 256)

def load32 (m : Mem) (a : Nat) : Nat :=
  load8 m a + 256 * load8 m (a + 1) + 65536 * load8 m (a + 2) +
    16777216 * load8 m (a + 3)

def store32 (m : Mem) (a v : Nat) : Mem :=
  store8 (store8 (store8 (store8 m a v) (a + 1) (v / 256)) (a + 2) (v / 65536))
    (a + 3) (v / 16777216)

/-- `size_of::<*mut u8>()` on the 32-bit target. -/
def psize : Nat := 4

/-- `size_of::<BusyBlock>()`. -/
def bbsize : Nat := 4

/-- `size_of::<FreeBlock>()`. -/
def fbsize : Nat := 8

structure Smalloc where
  start : Nat
  size : Nat

/-- `Smalloc::free_list_start`. -/
def freeListStart (s : Smalloc) : Nat := s.start

/-- `Smalloc::get_next_ptr`. -/
def getNextPtr (s : Smalloc) (block : Nat) : Nat :=
  if block = 0 then freeListStart s else block + 4

/-- The `while` loop of `Smalloc::find_free_after`, fuel-bounded (`none`
models a walk of a corrupted cyclic list that never terminates). -/
def findFreeLoop (m : Mem) (sz : Nat) : Nat → Nat → Nat → Option (Nat × Nat)
  | _, _, 0 => none
  | prev, cur, fuel + 1 =>
    if cur ≠ 0 ∧ load16 m (cur + 2) < sz then
      findFreeLoop m sz cur (load32 m (cur + 4)) fuel
    else
      some (prev, cur)

/-- `Smalloc::find_free_block`, i.e. `find_free_after(size, null)`. -/
def findFreeBlock (s : Smalloc) (m : Mem) (sz fuel : Nat) : Option (Nat × Nat) :=
  findFreeLoop m sz 0 (load32 m (getNextPtr s 0)) fuel

/-- The address-ordering loop of `Smalloc::install_free_block`. -/
def installLoop (m : Mem) (bsz baddr : Nat) : Nat → Nat → Nat → Option (Nat × Nat)
  | _, _, 0 => none
  | prev, next, fuel + 1 =>
    if next ≠ 0 ∧ load16 m (next + 2) = bsz ∧ baddr > next then
      installLoop m bsz baddr next (load32 m (next + 4)) fuel
    else
      some (prev, next)

/-- `Smalloc::install_free_block`. -/
def installFreeBlock (s : Smalloc) (m : Mem) (block fuel : Nat) : Option Mem :=
  match findFreeBlock s m (load16 m (block + 2)) fuel with
  | none => none
  | some r1 =>
    match installLoop m (load16 m (block + 2)) block r1.1 r1.2 fuel with
    | none => none
    | some r2 =>
      some (store32 (store32 m (getNextPtr s r2.1) block) (block + 4) r2.2)

/-- `Smalloc::alloc`.  Returns the updated memory and the returned
pointer (0 is null), or `none` if the fuel for a free-list walk runs out.
The source's rounding `(size + psize() - 1) & !(psize() - 1)` is written
as `(size + psize - 1) / psize * psize`, equal to it for every in-range
`usize`; the `size as u16` narrowing at the `find_free_block` call and at
the `u16` field writes is `% 65536` (`store16` also truncates); the
`isize` comparison deciding the split is on `Int`. -/
def alloc (s : Smalloc) (m : Mem) (size0 fuel : Nat) : Option (Mem × Nat) :=
  if size0 = 0 then some (m, 0)
  else if size0 > 65535 then some (m, 0)
  else
    let size := (size0 + psize - 1) / psize * psize
    match findFreeBlock s m (size % 65536) fuel with
    | none => none
    | some pc =>
      let prev_empty := pc.1
      let cur := pc.2
      if cur = 0 then some (m, 0)
      else
        let m1 := store32 m (getNextPtr s prev_empty) (load32 m (cur + 4))
        let prev_cur_size := load16 m1 (cur + 2)
        if (prev_cur_size : Int) - (size : Int) < (fbsize : Int) then
          let m2 := store16 (store16 m1 cur (load16 m1 cur - 1)) (cur + 2)
            prev_cur_size
          some (m2, cur + bbsize)
        else
          let split_next := cur + bbsize + size
          let m2 := store32
            (store16 (store16 m1 split_next (size + 1))
              (split_next + 2) (prev_cur_size - size % 65536 - bbsize))
            (split_next + 4) 0
          let split_next_next := split_next + load16 m2 (split_next + 2) + bbsize
          let m3 := if split_next_next < s.start + s.size then
              store16 m2 split_next_next
                (load16 m2 (split_next + 2) + load16 m2 split_next_next % 2)
            else m2
          match installFreeBlock s m3 split_next fuel with
          | none => none
          | some m4 =>
            let m5 := store16 (store16 m4 cur (load16 m4 cur - 1)) (cur + 2) size
            some (m5, cur + bbsize)

/-- The memory after a successful `alloc` (unchanged memory otherwise). -/
def allocMem (s : Smalloc) (m : Mem) (size0 fuel : Nat) : Mem :=
  match alloc s m size0 fuel with
  | some r => r.1
  | none => m

/-- The pointer returned by `alloc` (0 otherwise). -/
def allocPtr (s : Smalloc) (m : Mem) (size0 fuel : Nat) : Nat :=
  match alloc s m size0 fuel with
  | some r => r.2
  | none => 0

/-- All-zero memory, the base of the concrete heaps below. -/
def mem0 : Mem := fun _ => 0

/-- A heap region starting at address 4: the free-list head pointer at 4
points to a free block at 8 (`prev_size = 1`, i.e. previous size 0 and
free bit set; `size = B`; `next = null`), followed by a busy block at
`12 + B` (`prev_size = B`, free bit clear; `size = C`).  This is the
layout `init` + one allocation of size `C` produces at the end of a
region of total size `12 + B + C`. -/
def heap2 (B C : Nat) : Mem :=
  store16
    (store16 (store32 (store16 (store16 (store32 mem0 4 8) 8 1) 10 B) 12 0)
      (12 + B) B)
    (14 + B) C

/-- The `Smalloc` descriptor for `heap2 B C`. -/
def sm2 (B C : Nat) : Smalloc := ⟨4, 12 + B + C⟩

/-! ## Theorems -/

theorem bitSizeAux_le_fuel : ∀ fuel n, bitSizeAux fuel n ≤ fuel
  | 0, _ => Nat.le_refl 0
  | fuel + 1, n => by
    unfold bitSizeAux
    by_cases h : n = 0
    · simp [h]
    · simpa [h] using bitSizeAux_le_fuel fuel (n / 2)

theorem bitSizeAux_eq_zero : ∀ fuel, bitSizeAux fuel 0 = 0
  | 0 => rfl
  | _ + 1 => by unfold bitSizeAux; simp

theorem bitSizeAux_pos : ∀ fuel n, n ≠ 0 → 0 < bitSizeAux (fuel + 1) n := by
  intro fuel n hn
  unfold bitSizeAux
  simp [hn]

theorem bitSizeAux_lt_two_pow : ∀ fuel n, n < 2 ^ fuel → n < 2 ^ bitSizeAux fuel n
  | 0, n, h => by simpa [bitSizeAux] using h
  | fuel + 1, n, h => by
    unfold bitSizeAux
    by_cases hn : n = 0
    · simp [hn]
    · have hdiv : n / 2 < 2 ^ fuel := by
        have : n < 2 ^ fuel * 2 := by
          simpa [Nat.pow_succ] using h
        omega
      have ih := bitSizeAux_lt_two_pow fuel (n / 2) hdiv
      simp only [hn, if_false]
      have : n < 2 ^ bitSizeAux fuel (n / 2) * 2 := by omega
      simpa [Nat.pow_succ] using this

theorem two_pow_bitSizeAux_le : ∀ fuel n, n ≠ 0 → 2 ^ (bitSizeAux fuel n - 1) ≤ n
  | 0, n, hn => by
    have h1 : bitSizeAux 0 n = 0 := rfl
    rw [h1]
    simpa using Nat.one_le_iff_ne_zero.mpr hn
  | fuel + 1, n, hn => by
    have hn1 : 1 ≤ n := Nat.one_le_iff_ne_zero.mpr hn
    unfold bitSizeAux
    simp only [hn, if_false]
    by_cases hd : n / 2 = 0
    · rw [hd, bitSizeAux_eq_zero]
      simpa using hn1
    · have ih := two_pow_bitSizeAux_le fuel (n / 2) hd
      have hstep : 2 ^ (bitSizeAux fuel (n / 2) + 1 - 1) = 2 ^ bitSizeAux fuel (n / 2) := by
        norm_num
      rw [hstep]
      rcases Nat.eq_zero_or_pos (bitSizeAux fuel (n / 2)) with hzero | hpos
      · rw [hzero]
        simpa using hn1
      · have hsplit : 2 ^ (bitSizeAux fuel (n / 2) - 1) * 2 = 2 ^ bitSizeAux fuel (n / 2) := by
          rw [← Nat.pow_succ]
          congr 1
          omega
        rw [← hsplit]
        have h1 : 2 ^ (bitSizeAux fuel (n / 2) - 1) * 2 ≤ (n / 2) * 2 := by omega
        omega

/-- For a nonzero `u32` value, `31 - leading_zeros` is the index of the
highest set bit. -/
theorem highestBit_testBit (m : Nat) (hm : m ≠ 0) (h32 : m < 2 ^ 32) :
    m.testBit (31 - leadingZeros32 m) = true ∧
    ∀ j, m.testBit j = true → j ≤ 31 - leadingZeros32 m := by
  set b := bitSizeAux 32 m with hb
  have hble : b ≤ 32 := bitSizeAux_le_fuel 32 m
  have hbpos : 0 < b := bitSizeAux_pos 31 m hm
  have hlo : 2 ^ (b - 1) ≤ m := two_pow_bitSizeAux_le 32 m hm
  have hhi : m < 2 ^ b := bitSizeAux_lt_two_pow 32 m h32
  have hid : 31 - leadingZeros32 m = b - 1 := by
    unfold leadingZeros32
    omega
  rw [hid]
  constructor
  · rw [Nat.testBit_to_div_mod]
    have hpow : 2 ^ (b - 1) * 2 = 2 ^ b := by
      rw [← Nat.pow_succ]
      congr 1
      omega
    have hdiv1 : m / 2 ^ (b - 1) = 1 := by
      have hk : 0 < 2 ^ (b - 1) := Nat.pos_pow_of_pos _ (by norm_num)
      have h1 : 1 ≤ m / 2 ^ (b - 1) := (Nat.le_div_iff_mul_le hk).mpr (by omega)
      have h2 : m / 2 ^ (b - 1) < 2 := (Nat.div_lt_iff_lt_mul hk).mpr (by omega)
      omega
    simp [hdiv1]
  · intro j hj
    by_contra hgt
    have hbj : b ≤ j := by omega
    have : m < 2 ^ j := lt_of_lt_of_le hhi (Nat.pow_le_pow_right (by norm_num) hbj)
    rw [Nat.testBit_lt_two_pow this] at hj
    exact Bool.false_ne_true hj

theorem selectNextTask_eq_none (st : ReactorState) (h : st.ready_mask = 0) :
    selectNextTask st = none := by
  unfold selectNextTask leadingZeros32
  rw [h, bitSizeAux_eq_zero]
  simp

theorem selectNextTask_eq_some (st : ReactorState) (h : st.ready_mask ≠ 0) :
    selectNextTask st = some (31 - leadingZeros32 st.ready_mask) := by
  unfold selectNextTask leadingZeros32
  have h1 : 0 < bitSizeAux 32 st.ready_mask := bitSizeAux_pos 31 st.ready_mask h
  have h2 : bitSizeAux 32 st.ready_mask ≤ 32 := bitSizeAux_le_fuel 32 st.ready_mask
  simp only [leadingZeros32]
  have : ¬(32 - bitSizeAux 32 st.ready_mask = 32) := by omega
  simp [this]

/-- Bit `j` of the mask after `fetch_and(!task_mask)`. -/
theorem cleared_testBit (m i j : Nat) (hm : m < 2 ^ 32) :
    (m &&& ((2 ^ 32 - 1) ^^^ 2 ^ i)).testBit j =
      (m.testBit j && !(decide (i = j))) := by
  rw [Nat.testBit_and, Nat.testBit_xor, Nat.testBit_two_pow_sub_one, Nat.testBit_two_pow]
  by_cases hj : j < 32
  · simp [hj]
  · have : m < 2 ^ j := lt_of_lt_of_le hm (Nat.pow_le_pow_right (by norm_num) (by omega))
    rw [Nat.testBit_lt_two_pow this]
    simp

/-- `runStep` on a state with a ready bit and an occupied selected slot. -/
theorem runStep_occupied (st : ReactorState) (slot : TaskSlot)
    (hne : st.ready_mask ≠ 0)
    (hslot : st.tasks.getD (selectedId st) none = some slot) :
    runStep st = some
      { current_task_mask := 2 ^ selectedId st,
        ready_mask := st.ready_mask &&& ((2 ^ 32 - 1) ^^^ 2 ^ selectedId st),
        tasks := st.tasks.set (selectedId st)
          (match (pollSlot slot).1 with
           | PollResult.notReady => some (pollSlot slot).2
           | _ => none),
        polled := st.polled ++ [selectedId st] } := by
  unfold runStep
  rw [selectNextTask_eq_some st hne]
  have hsel : (31 - leadingZeros32 st.ready_mask) = selectedId st := rfl
  simp only [hsel, hslot]

/-- `runStep` on a state with a ready bit whose selected slot is empty. -/
theorem runStep_empty (st : ReactorState)
    (hne : st.ready_mask ≠ 0)
    (hslot : st.tasks.getD (selectedId st) none = none) :
    runStep st = some
      { st with
        current_task_mask := 2 ^ selectedId st,
        ready_mask := st.ready_mask &&& ((2 ^ 32 - 1) ^^^ 2 ^ selectedId st) } := by
  unfold runStep
  rw [selectNextTask_eq_some st hne]
  have hsel : (31 - leadingZeros32 st.ready_mask) = selectedId st := rfl
  simp only [hsel, hslot]

/-- C1: each iteration of `Reactor::run` selects the ready task with the
highest id (31 minus the leading-zero count of `ready_mask`), clears
exactly that bit, publishes `1 << id` as `current_task_mask`, and polls
the computation in that slot exactly once; if `ready_mask` is zero, `run`
returns. -/
theorem reactor_run_selects_highest (st : ReactorState)
    (h32 : st.ready_mask < 2 ^ 32) : RunStepSpec st := by
  constructor
  · intro h0
    have hsel := selectNextTask_eq_none st h0
    refine ⟨by simp [runStep, hsel], ?_⟩
    intro fuel
    cases fuel with
    | zero => rfl
    | succ f => simp [run, runStep, hsel]
  · intro hne
    have hbits := highestBit_testBit st.ready_mask hne h32
    have hclear : ∀ j,
        (st.ready_mask &&& ((2 ^ 32 - 1) ^^^ 2 ^ selectedId st)).testBit j =
          (st.ready_mask.testBit j && !(decide (selectedId st = j))) :=
      fun j => cleared_testBit st.ready_mask (selectedId st) j h32
    cases hslot : st.tasks.getD (selectedId st) none with
    | some slot =>
      refine ⟨_, runStep_occupied st slot hne hslot, ?_, ?_, ?_, ?_, ?_, ?_, ?_⟩
      · exact hbits.1
      · exact hbits.2
      · rw [hclear]
        simp
      · intro j hj
        rw [hclear]
        have hne2 : ¬(selectedId st = j) := fun h => hj h.symm
        simp [hne2]
      · rfl
      · intro _
        rfl
      · intro h
        rw [h] at hslot
        cases hslot
    | none =>
      refine ⟨_, runStep_empty st hne hslot, ?_, ?_, ?_, ?_, ?_, ?_, ?_⟩
      · exact hbits.1
      · exact hbits.2
      · rw [hclear]
        simp
      · intro j hj
        rw [hclear]
        have hne2 : ¬(selectedId st = j) := fun h => hj h.symm
        simp [hne2]
      · rfl
      · intro h
        rw [hslot] at h
        cases h
      · intro _
        rfl

/-- Witness for C1 at a concrete reactor state: `ready_mask = 5` (bits 0
and 2 set), slot 2 occupied. -/
theorem reactor_run_selects_highest_witness :
    (ReactorState.mk 0 5 [none, none, some ⟨0, [PollResult.notReady]⟩, none] []).ready_mask
        < 2 ^ 32 ∧
      RunStepSpec (ReactorState.mk 0 5 [none, none, some ⟨0, [PollResult.notReady]⟩, none] []) :=
  ⟨by norm_num,
   reactor_run_selects_highest
     (ReactorState.mk 0 5 [none, none, some ⟨0, [PollResult.notReady]⟩, none] [])
     (by norm_num)⟩

/-- C4: when the selected ready bit refers to an empty task slot, the run
loop clears the bit, advances no computation, does not fault, and resumes
selection on the remaining ready bits. -/
theorem reactor_empty_slot_noop (st : ReactorState)
    (h32 : st.ready_mask < 2 ^ 32) (hne : st.ready_mask ≠ 0)
    (hslot : st.tasks.getD (selectedId st) none = none) :
    ∃ st', runStep st = some st' ∧
      st'.tasks = st.tasks ∧
      st'.polled = st.polled ∧
      st'.ready_mask.testBit (selectedId st) = false ∧
      (∀ j, j ≠ selectedId st →
        st'.ready_mask.testBit j = st.ready_mask.testBit j) ∧
      (∀ fuel, run (fuel + 1) st = run fuel st') := by
  refine ⟨_, runStep_empty st hne hslot, rfl, rfl, ?_, ?_, ?_⟩
  · rw [cleared_testBit _ _ _ h32]
    simp
  · intro j hj
    rw [cleared_testBit _ _ _ h32]
    have hne2 : ¬(selectedId st = j) := fun h => hj h.symm
    simp [hne2]
  · intro fuel
    simp only [run, runStep_empty st hne hslot]

/-- Witness for C4: `ready_mask = 8` (bit 3, the scenario of the spec's
stale-waker example) with every slot empty. -/
theorem reactor_empty_slot_noop_witness :
    ((ReactorState.mk 0 8 [] []).ready_mask < 2 ^ 32 ∧
     (ReactorState.mk 0 8 [] []).ready_mask ≠ 0 ∧
     (ReactorState.mk 0 8 [] []).tasks.getD (selectedId (ReactorState.mk 0 8 [] [])) none
       = none) ∧
    ∃ st', runStep (ReactorState.mk 0 8 [] []) = some st' ∧
      st'.tasks = (ReactorState.mk 0 8 [] []).tasks ∧
      st'.polled = (ReactorState.mk 0 8 [] []).polled ∧
      st'.ready_mask.testBit (selectedId (ReactorState.mk 0 8 [] [])) = false ∧
      (∀ j, j ≠ selectedId (ReactorState.mk 0 8 [] []) →
        st'.ready_mask.testBit j = (ReactorState.mk 0 8 [] []).ready_mask.testBit j) ∧
      (∀ fuel, run (fuel + 1) (ReactorState.mk 0 8 [] []) = run fuel st') :=
  ⟨⟨by norm_num, by norm_num, by decide⟩,
   reactor_empty_slot_noop (ReactorState.mk 0 8 [] [])
     (by norm_num) (by norm_num) (by decide)⟩

theorem lockPoll_wait (ms : MutexState) (t : Nat) :
    (lockPoll ms t).1.wait_task_mask = ms.wait_task_mask ||| t := by
  unfold lockPoll
  by_cases h : ms.owner = 0 <;> simp [h]

theorem pollAll_wait : ∀ (ts : List Nat) (ms : MutexState),
    (pollAll ms ts).wait_task_mask =
      ts.foldl (fun a t => a ||| t) ms.wait_task_mask
  | [], _ => rfl
  | t :: ts, ms => by
    unfold pollAll
    simp only [List.foldl_cons]
    have h := pollAll_wait ts (lockPoll ms t).1
    unfold pollAll at h
    rw [h, lockPoll_wait]

theorem foldl_or_testBit : ∀ (ts : List Nat) (w i : Nat),
    (ts.foldl (fun a t => a ||| t) w).testBit i =
      (w.testBit i || ts.any (fun t => t.testBit i))
  | [], _, _ => by simp
  | t :: ts, w, i => by
    simp only [List.foldl_cons, List.any_cons]
    rw [foldl_or_testBit ts (w ||| t) i, Nat.testBit_or]
    cases w.testBit i <;> cases t.testBit i <;> simp

/-- C2: releasing the mutex stores 0 to `owner`, swaps `wait_task_mask`
with 0, ORs the swapped-out mask into the reactor's `ready_mask`, and the
woken bits are exactly the union of the masks that polled the lock future
since the previous release (which left `wait_task_mask = 0`). -/
theorem mutex_release_wakes_attempters (o r : Nat) (ts : List Nat) :
    (mutexRelease (pollAll ⟨0, o⟩ ts) r).1 = ⟨0, 0⟩ ∧
    (mutexRelease (pollAll ⟨0, o⟩ ts) r).2.1 =
      r ||| (pollAll ⟨0, o⟩ ts).wait_task_mask ∧
    (mutexRelease (pollAll ⟨0, o⟩ ts) r).2.2 =
      (pollAll ⟨0, o⟩ ts).wait_task_mask ∧
    ∀ i, ((mutexRelease (pollAll ⟨0, o⟩ ts) r).2.2.testBit i = true ↔
      ∃ t ∈ ts, t.testBit i = true) := by
  refine ⟨rfl, ?_, rfl, ?_⟩
  · unfold mutexRelease
    by_cases h : (pollAll ⟨0, o⟩ ts).wait_task_mask = 0 <;> simp [h]
  · intro i
    have hrel : (mutexRelease (pollAll ⟨0, o⟩ ts) r).2.2 =
        (pollAll ⟨0, o⟩ ts).wait_task_mask := rfl
    rw [hrel, pollAll_wait]
    have hw : (⟨0, o⟩ : MutexState).wait_task_mask = 0 := rfl
    rw [hw, foldl_or_testBit]
    simp [List.any_eq_true]

/-- C10: polling the lock future while `current_task_mask` is 0 on an
unlocked mutex CASes owner from 0 to 0 and returns `Ready` with owner
still 0, so a second such poll also returns `Ready`; with a nonzero task
mask the second poll instead returns `Pending`. -/
theorem mutex_lock_outside_task (ms : MutexState) (h : ms.owner = 0) :
    (lockPoll ms 0).2 = true ∧
    (lockPoll ms 0).1.owner = 0 ∧
    (lockPoll (lockPoll ms 0).1 0).2 = true ∧
    (∀ m m', m ≠ 0 → (lockPoll ms m).2 = true ∧
      (lockPoll (lockPoll ms m).1 m').2 = false) := by
  refine ⟨?_, ?_, ?_, ?_⟩
  · simp [lockPoll, h]
  · simp [lockPoll, h]
  · simp [lockPoll, h]
  · intro m m' hm
    constructor
    · simp [lockPoll, h]
    · simp [lockPoll, h, hm]

/-- Witness for C10 on a freshly created mutex. -/
theorem mutex_lock_outside_task_witness :
    mutexNew.owner = 0 ∧
    ((lockPoll mutexNew 0).2 = true ∧
     (lockPoll mutexNew 0).1.owner = 0 ∧
     (lockPoll (lockPoll mutexNew 0).1 0).2 = true ∧
     (∀ m m', m ≠ 0 → (lockPoll mutexNew m).2 = true ∧
       (lockPoll (lockPoll mutexNew m).1 m').2 = false)) :=
  ⟨rfl, mutex_lock_outside_task mutexNew rfl⟩

/-- Counterexample to C3 as stated: for the promise produced by
`Promise::empty` (never claimed, never resolved), `poll` does not return
`Pending` — it panics (modelled as `none`), because the task word is 0 and
the stored value is `None`. -/
theorem promise_poll_unclaimed_panics :
    promisePoll (promiseEmpty Nat Nat) = none ∧
    (promisePoll (promiseEmpty Nat Nat)).map Prod.fst ≠
      some PromisePollOut.notReady := by
  constructor
  · rfl
  · simp [promisePoll, promiseEmpty]

/-- C3 (amended): for every promise whose task word is nonzero (claimed
and unresolved from the consumer's view), `poll` returns `Pending`; after
`resolve(v)`, the next `poll` acquire-loads the task word, sees 0, takes
the stored value (leaving `None`) and returns exactly `v`. -/
theorem promise_poll_round_trip (T E : Type) (p : PromiseState T E)
    (x : T) (e : E) (h : p.task ≠ 0) :
    promisePoll p = some (PromisePollOut.notReady, p) ∧
    promisePoll (promiseResolve p (RResult.ok x)).1 =
      some (PromisePollOut.ready x, ⟨0, none⟩) ∧
    promisePoll (promiseResolve p (RResult.err e)).1 =
      some (PromisePollOut.error e, ⟨0, none⟩) := by
  refine ⟨?_, rfl, rfl⟩
  simp [promisePoll, h]

/-- Witness for the amended C3 on a concrete claimed promise. -/
theorem promise_poll_round_trip_witness :
    (promiseNewTask Nat Nat 4).task ≠ 0 ∧
    (promisePoll (promiseNewTask Nat Nat 4) =
      some (PromisePollOut.notReady, promiseNewTask Nat Nat 4) ∧
     promisePoll (promiseResolve (promiseNewTask Nat Nat 4) (RResult.ok 42)).1 =
      some (PromisePollOut.ready 42, ⟨0, none⟩) ∧
     promisePoll (promiseResolve (promiseNewTask Nat Nat 4) (RResult.err 7)).1 =
      some (PromisePollOut.error 7, ⟨0, none⟩)) :=
  ⟨by decide, promise_poll_round_trip Nat Nat (promiseNewTask Nat Nat 4) 42 7 (by decide)⟩

/-- Counterexample to C5 as stated: the construction `Promise::empty`
itself produces a state (task word 0, stored value `None`, value never
read) that violates the claimed invariant. -/
theorem promise_empty_violates_inv : ¬ PromiseInv (ghostEmpty Nat Nat) := by
  intro h
  exact h.2 rfl rfl rfl

/-- C5 (amended): `new`/`new_task`/`claim` with a nonzero task mask (claim
on a promise holding no value), `resolve` of an unresolved promise, and
any non-panicking `poll` all preserve the invariant `task ≠ 0 → value =
None` and `task = 0 → value = Some` until the consumer reads it; `empty`
instead creates a state violating it until the promise is claimed. -/
theorem promise_ops_preserve_inv (T E : Type) (p : PromiseGhost T E)
    (m : Nat) (res : RResult T E) (hm : m ≠ 0) (hinv : PromiseInv p) :
    PromiseInv (ghostNewTask T E m) ∧
    (p.st.result = none → PromiseInv (ghostClaim p m)) ∧
    (p.st.task ≠ 0 → PromiseInv (ghostResolve p res).1) ∧
    (∀ out p', ghostPoll p = some (out, p') → PromiseInv p') := by
  refine ⟨⟨fun _ => rfl, fun h0 => absurd h0 hm⟩, ?_, ?_, ?_⟩
  · intro hres
    exact ⟨fun _ => hres, fun h0 => absurd h0 hm⟩
  · intro htask
    refine ⟨fun h0 => absurd rfl h0, fun _ _ => ?_⟩
    simp [ghostResolve, promiseResolve]
  · intro out p' hp
    unfold ghostPoll at hp
    by_cases h0 : p.st.task = 0
    · have hres := hinv.2 h0
      cases hr : p.st.result with
      | none =>
        by_cases hc : p.consumed = false
        · exact absurd hr (hres hc)
        · rw [promisePoll] at hp
          simp [h0, hr] at hp
      | some v =>
        cases v with
        | ok x =>
          rw [promisePoll] at hp
          simp only [h0, if_true, hr] at hp
          cases hp
          exact ⟨fun _ => rfl, fun _ hc => by simp at hc⟩
        | err x =>
          rw [promisePoll] at hp
          simp only [h0, if_true, hr] at hp
          cases hp
          exact ⟨fun _ => rfl, fun _ hc => by simp at hc⟩
    · rw [promisePoll] at hp
      simp only [h0, if_neg, if_false] at hp
      cases hp
      exact ⟨hinv.1, fun hz => absurd hz h0⟩

/-- Witness for the amended C5 on a concrete claimed promise. -/
theorem promise_ops_preserve_inv_witness :
    (1 : Nat) ≠ 0 ∧ PromiseInv (ghostNewTask Nat Nat 2) ∧
    (PromiseInv (ghostNewTask Nat Nat 1) ∧
     ((ghostNewTask Nat Nat 2).st.result = none →
       PromiseInv (ghostClaim (ghostNewTask Nat Nat 2) 1)) ∧
     ((ghostNewTask Nat Nat 2).st.task ≠ 0 →
       PromiseInv (ghostResolve (ghostNewTask Nat Nat 2) (RResult.ok 5)).1) ∧
     (∀ out p', ghostPoll (ghostNewTask Nat Nat 2) = some (out, p') →
       PromiseInv p')) :=
  ⟨by decide, ⟨fun _ => rfl, fun h => by simp [ghostNewTask, promiseNewTask] at h⟩,
   promise_ops_preserve_inv Nat Nat (ghostNewTask Nat Nat 2) 1 (RResult.ok 5)
     (by decide) ⟨fun _ => rfl, fun h => by simp [ghostNewTask, promiseNewTask] at h⟩⟩

/-- C9: `Promise`'s `poll` panics (the `unwrap` of a `None` value)
whenever it observes a zero task word with no stored value: polling a
never-claimed never-resolved `empty` promise panics, and a second poll
observing `task = 0` after a single resolve panics. -/
theorem promise_poll_double_take_panics (T E : Type)
    (p q : PromiseState T E) (res : RResult T E)
    (hq0 : q.task = 0) (hqn : q.result = none) :
    promisePoll q = none ∧
    promisePoll (promiseEmpty T E) = none ∧
    (∀ out p', promisePoll (promiseResolve p res).1 = some (out, p') →
      promisePoll p' = none) := by
  refine ⟨?_, rfl, ?_⟩
  · simp [promisePoll, hq0, hqn]
  · intro out p' hp
    unfold promisePoll promiseResolve at hp
    cases res with
    | ok x =>
      simp only [if_true] at hp
      cases hp
      rfl
    | err x =>
      simp only [if_true] at hp
      cases hp
      rfl

/-- Witness for C9 at concrete promises. -/
theorem promise_poll_double_take_panics_witness :
    ((⟨0, none⟩ : PromiseState Nat Nat).task = 0 ∧
     (⟨0, none⟩ : PromiseState Nat Nat).result = none) ∧
    promisePoll (⟨0, none⟩ : PromiseState Nat Nat) = none ∧
    promisePoll (promiseEmpty Nat Nat) = none :=
  ⟨⟨rfl, rfl⟩,
   (promise_poll_double_take_panics Nat Nat (promiseNewTask Nat Nat 1)
      ⟨0, none⟩ (RResult.ok 0) rfl rfl).1,
   (promise_poll_double_take_panics Nat Nat (promiseNewTask Nat Nat 1)
      ⟨0, none⟩ (RResult.ok 0) rfl rfl).2.1⟩

theorem load8_store8_eq (m : Mem) (a v : Nat) : load8 (store8 m a v) a = v % 256 := by
  simp [load8, store8]

theorem load8_store8_ne (m : Mem) (a v b : Nat) (h : b ≠ a) :
    load8 (store8 m a v) b = load8 m b := by
  simp [load8, store8, h]

theorem load8_store16_ne (m : Mem) (a v b : Nat) (h : b < a ∨ a + 1 < b) :
    load8 (store16 m a v) b = load8 m b := by
  unfold store16
  rw [load8_store8_ne _ _ _ _ (by omega), load8_store8_ne _ _ _ _ (by omega)]

theorem load8_store32_ne (m : Mem) (a v b : Nat) (h : b < a ∨ a + 3 < b) :
    load8 (store32 m a v) b = load8 m b := by
  unfold store32
  rw [load8_store8_ne _ _ _ _ (by omega), load8_store8_ne _ _ _ _ (by omega),
    load8_store8_ne _ _ _ _ (by omega), load8_store8_ne _ _ _ _ (by omega)]

theorem load16_store16_eq (m : Mem) (a v : Nat) :
    load16 (store16 m a v) a = v % 65536 := by
  unfold load16 store16
  rw [load8_store8_ne _ _ _ _ (by omega), load8_store8_eq, load8_store8_eq]
  omega

theorem load16_store16_ne (m : Mem) (a v b : Nat) (h : b + 1 < a ∨ a + 1 < b) :
    load16 (store16 m a v) b = load16 m b := by
  unfold load16
  rw [load8_store16_ne _ _ _ _ (by omega), load8_store16_ne _ _ _ _ (by omega)]

theorem load16_store32_ne (m : Mem) (a v b : Nat) (h : b + 1 < a ∨ a + 3 < b) :
    load16 (store32 m a v) b = load16 m b := by
  unfold load16
  rw [load8_store32_ne _ _ _ _ (by omega), load8_store32_ne _ _ _ _ (by omega)]

theorem load32_store16_ne (m : Mem) (a v b : Nat) (h : b + 3 < a ∨ a + 1 < b) :
    load32 (store16 m a v) b = load32 m b := by
  unfold load32
  rw [load8_store16_ne _ _ _ _ (by omega), load8_store16_ne _ _ _ _ (by omega),
    load8_store16_ne _ _ _ _ (by omega), load8_store16_ne _ _ _ _ (by omega)]

theorem load32_store32_ne (m : Mem) (a v b : Nat) (h : b + 3 < a ∨ a + 3 < b) :
    load32 (store32 m a v) b = load32 m b := by
  unfold load32
  rw [load8_store32_ne _ _ _ _ (by omega), load8_store32_ne _ _ _ _ (by omega),
    load8_store32_ne _ _ _ _ (by omega), load8_store32_ne _ _ _ _ (by omega)]

theorem load8_store32_byte0 (m : Mem) (a v : Nat) :
    load8 (store32 m a v) a = v % 256 := by
  unfold store32
  rw [load8_store8_ne _ _ _ _ (by omega), load8_store8_ne _ _ _ _ (by omega),
    load8_store8_ne _ _ _ _ (by omega), load8_store8_eq]

theorem load8_store32_byte1 (m : Mem) (a v : Nat) :
    load8 (store32 m a v) (a + 1) = v / 256 % 256 := by
  unfold store32
  rw [load8_store8_ne _ _ _ _ (by omega), load8_store8_ne _ _ _ _ (by omega),
    load8_store8_eq]

theorem load8_store32_byte2 (m : Mem) (a v : Nat) :
    load8 (store32 m a v) (a + 2) = v / 65536 % 256 := by
  unfold store32
  rw [load8_store8_ne _ _ _ _ (by omega), load8_store8_eq]

theorem load8_store32_byte3 (m : Mem) (a v : Nat) :
    load8 (store32 m a v) (a + 3) = v / 16777216 % 256 := by
  unfold store32
  rw [load8_store8_eq]

theorem load32_store32_eq (m : Mem) (a v : Nat) :
    load32 (store32 m a v) a = v % 4294967296 := by
  unfold load32
  rw [load8_store32_byte0, load8_store32_byte1, load8_store32_byte2,
    load8_store32_byte3]
  omega

theorem heap2_head (B C : Nat) : load32 (heap2 B C) 4 = 8 := by
  unfold heap2
  rw [load32_store16_ne _ (14 + B) C 4 (by omega),
    load32_store16_ne _ (12 + B) B 4 (by omega),
    load32_store32_ne _ 12 0 4 (by omega),
    load32_store16_ne _ 10 B 4 (by omega),
    load32_store16_ne _ 8 1 4 (by omega),
    load32_store32_eq]

theorem heap2_size1 (B C : Nat) (hB : B < 65536) : load16 (heap2 B C) 10 = B := by
  unfold heap2
  rw [load16_store16_ne _ (14 + B) C 10 (by omega),
    load16_store16_ne _ (12 + B) B 10 (by omega),
    load16_store32_ne _ 12 0 10 (by omega),
    load16_store16_eq]
  omega

theorem heap2_prev1 (B C : Nat) : load16 (heap2 B C) 8 = 1 := by
  unfold heap2
  rw [load16_store16_ne _ (14 + B) C 8 (by omega),
    load16_store16_ne _ (12 + B) B 8 (by omega),
    load16_store32_ne _ 12 0 8 (by omega),
    load16_store16_ne _ 10 B 8 (by omega),
    load16_store16_eq]

theorem heap2_next1 (B C : Nat) (hB : 4 ≤ B) : load32 (heap2 B C) 12 = 0 := by
  unfold heap2
  rw [load32_store16_ne _ (14 + B) C 12 (by omega),
    load32_store16_ne _ (12 + B) B 12 (by omega),
    load32_store32_eq]

theorem heap2_tag2 (B C : Nat) (hB : B < 65536) :
    load16 (heap2 B C) (12 + B) = B := by
  unfold heap2
  rw [load16_store16_ne _ (14 + B) C (12 + B) (by omega),
    load16_store16_eq]
  omega

/-- Stage lemma: on `heap2`, `find_free_block` for any request not above
`B` selects the single free block at address 8, with null predecessor. -/
theorem findFreeBlock_heap2 (B C sz F : Nat) (hB : B < 65536) (hsz : sz ≤ B) :
    findFreeBlock (sm2 B C) (heap2 B C) sz (F + 1) = some (0, 8) := by
  unfold findFreeBlock
  have hg : getNextPtr (sm2 B C) 0 = 4 := rfl
  rw [hg, heap2_head]
  unfold findFreeLoop
  have hcond : ¬((8 : Nat) ≠ 0 ∧ load16 (heap2 B C) (8 + 2) < sz) := by
    rw [(by norm_num : (8 : Nat) + 2 = 10), heap2_size1 B C hB]
    intro hand
    omega
  rw [if_neg hcond]

theorem getD_set_self (l : List α) (i : Nat) (a d : α) (h : i < l.length) :
    (l.set i a).getD i d = a := by
  rw [List.getD_eq_getElem?_getD, List.getElem?_set_self h]
  rfl

theorem getD_set_ne (l : List α) (i j : Nat) (a d : α) (h : i ≠ j) :
    (l.set i a).getD j d = l.getD j d := by
  rw [List.getD_eq_getElem?_getD, List.getElem?_set_ne h, ← List.getD_eq_getElem?_getD]

theorem drop_eq_getD_cons (l : List α) (k : Nat) (d : α) (h : k < l.length) :
    l.drop k = l.getD k d :: l.drop (k + 1) := by
  rw [List.drop_eq_getElem_cons h, List.getD_eq_getElem?_getD]
  simp [List.getElem?_eq_getElem h]

theorem getD_append_left (A : List α) (v : α) (i : Nat) (d : α) (h : i < A.length) :
    (A ++ [v]).getD i d = A.getD i d := by
  rw [List.getD_eq_getElem?_getD, List.getElem?_append, if_pos h,
    ← List.getD_eq_getElem?_getD]

theorem getD_append_length (A : List α) (v d : α) :
    (A ++ [v]).getD A.length d = v := by
  rw [List.getD_eq_getElem?_getD, List.getElem?_concat_length]
  rfl

theorem mod_succ_mod (x N : Nat) : (x % N + 1) % N = (x + 1) % N :=
  (Nat.mod_modEq x N).add_right 1

theorem mod_ne_of_between (a b N : Nat) (hab : a ≤ b) (hlt : b - a < N)
    (hpos : 0 < b - a) : a % N ≠ b % N := by
  intro h
  have hdvd : N ∣ b - a := (Nat.modEq_iff_dvd' hab).mp h
  have := Nat.le_of_dvd hpos hdvd
  omega

/-- A successful push (`next_tail ≠ head`) extends the abstraction by one
accepted value. -/
theorem push_accept_inv [Inhabited T] (cb : CircularBuffer T) (A : List T)
    (k : Nat) (v : T) (hinv : BufInv cb A k)
    (hfull : cb.increment cb.tail ≠ cb.head) :
    CircularBuffer.push cb v =
      (true, { cb with array := cb.array.set cb.tail v,
                       tail := cb.increment cb.tail }) ∧
    BufInv { cb with array := cb.array.set cb.tail v,
                     tail := cb.increment cb.tail } (A ++ [v]) k := by
  obtain ⟨hN, hk, hcap, hh, ht, hidx⟩ := hinv
  constructor
  · unfold CircularBuffer.push
    simp [hfull]
  · have hlen : (cb.array.set cb.tail v).length = cb.array.length :=
      List.length_set cb.array cb.tail v
    have hinc : cb.increment cb.tail = (A.length + 1) % cb.array.length := by
      unfold CircularBuffer.increment
      rw [ht, mod_succ_mod]
    have hcap' : A.length + 1 - k < cb.array.length := by
      by_contra hge
      have heq : A.length + 1 = k + cb.array.length := by omega
      apply hfull
      rw [hinc, hh, heq, Nat.add_comm k cb.array.length, Nat.add_mod_left]
    refine ⟨?_, ?_, ?_, ?_, ?_, ?_⟩
    · show 0 < (cb.array.set cb.tail v).length
      omega
    · show k ≤ (A ++ [v]).length
      simp only [List.length_append, List.length_singleton]
      omega
    · show (A ++ [v]).length - k < (cb.array.set cb.tail v).length
      simp only [List.length_append, List.length_singleton, hlen]
      omega
    · show cb.head = k % (cb.array.set cb.tail v).length
      rw [hlen]
      exact hh
    · show cb.increment cb.tail = (A ++ [v]).length % (cb.array.set cb.tail v).length
      simp only [List.length_append, List.length_singleton, hlen]
      exact hinc
    · intro i hki hilen
      simp only [List.length_append, List.length_singleton] at hilen
      simp only [hlen]
      rcases Nat.lt_or_ge i A.length with hi | hi
      · have hne : cb.tail ≠ i % cb.array.length := by
          rw [ht]
          intro h
          exact mod_ne_of_between i A.length cb.array.length (by omega)
            (by omega) (by omega) h.symm
        rw [getD_set_ne cb.array cb.tail (i % cb.array.length) v default hne,
          getD_append_left A v i default hi]
        exact hidx i hki hi
      · have hieq : i = A.length := by omega
        subst hieq
        have htlt : cb.tail < cb.array.length := by
          rw [ht]
          exact Nat.mod_lt _ hN
        rw [← ht, getD_set_self cb.array cb.tail v default htlt,
          getD_append_length]

/-- A pop on a buffer satisfying the invariant: empty iff everything
accepted was already popped; otherwise it returns `A[k]` and advances. -/
theorem pop_inv [Inhabited T] (cb : CircularBuffer T) (A : List T)
    (k : Nat) (hinv : BufInv cb A k) :
    (k = A.length → CircularBuffer.pop cb = (none, cb)) ∧
    (k < A.length →
      CircularBuffer.pop cb =
        (some (A.getD k default), { cb with head := cb.increment cb.head }) ∧
      BufInv { cb with head := cb.increment cb.head } A (k + 1)) := by
  obtain ⟨hN, hk, hcap, hh, ht, hidx⟩ := hinv
  constructor
  · intro hkA
    unfold CircularBuffer.pop
    have : cb.head = cb.tail := by rw [hh, ht, hkA]
    simp [this]
  · intro hklt
    have hne : cb.head ≠ cb.tail := by
      rw [hh, ht]
      exact mod_ne_of_between k A.length cb.array.length (by omega) (by omega)
        (by omega)
    have hval : cb.array.getD cb.head default = A.getD k default := by
      rw [hh]
      exact hidx k (Nat.le_refl k) hklt
    constructor
    · simp only [CircularBuffer.pop]
      rw [if_neg hne, hval]
    · have hinc : cb.increment cb.head = (k + 1) % cb.array.length := by
        unfold CircularBuffer.increment
        rw [hh, mod_succ_mod]
      refine ⟨hN, by omega, ?_, hinc, ht, fun i hki hilen =>
        hidx i (by omega) hilen⟩
      show A.length - (k + 1) < cb.array.length
      omega

/-- Induction core for C7: from any state abstracted by `(A, k)`, the
values popped during `ops` are precisely the next values of the combined
accepted sequence. -/
theorem runBufOps_fifo_aux [Inhabited T] :
    ∀ (ops : List (BufOp T)) (cb : CircularBuffer T) (A : List T) (k : Nat),
      BufInv cb A k →
      (runBufOps cb ops).2.2 =
        (A.drop k ++ (runBufOps cb ops).2.1).take (runBufOps cb ops).2.2.length
  | [], cb, A, k, _ => by simp [runBufOps]
  | BufOp.push v :: ops, cb, A, k, hinv => by
    by_cases hfull : cb.increment cb.tail = cb.head
    · have hpush : CircularBuffer.push cb v = (false, cb) := by
        unfold CircularBuffer.push
        simp [hfull]
      have ih := runBufOps_fifo_aux ops cb A k hinv
      simp only [runBufOps, hpush]
      simpa using ih
    · obtain ⟨hpush, hinv'⟩ := push_accept_inv cb A k v hinv hfull
      have ih := runBufOps_fifo_aux ops _ (A ++ [v]) k hinv'
      have hdrop : (A ++ [v]).drop k = A.drop k ++ [v] :=
        List.drop_append_of_le_length hinv.2.1
      simp only [runBufOps, hpush]
      simp only [hdrop, List.append_assoc] at ih
      simpa using ih
  | BufOp.pop :: ops, cb, A, k, hinv => by
    rcases Nat.lt_or_ge k A.length with hklt | hge
    · obtain ⟨hpop, hinv'⟩ := (pop_inv cb A k hinv).2 hklt
      have ih := runBufOps_fifo_aux ops _ A (k + 1) hinv'
      simp only [runBufOps, hpop]
      have hdrop : A.drop k = A.getD k default :: A.drop (k + 1) :=
        drop_eq_getD_cons A k default hklt
      simp only [hdrop]
      simpa using ih
    · have hkA : k = A.length := by
        have := hinv.2.1
        omega
      have hpop := (pop_inv cb A k hinv).1 hkA
      have ih := runBufOps_fifo_aux ops cb A k hinv
      simp only [runBufOps, hpop]
      simpa using ih

/-- C7: for every sequence of interleaved pushes and pops starting from a
fresh buffer, the popped sequence equals the accepted-push sequence
truncated to the number of successful pops (FIFO, no loss, no
duplication). -/
theorem circular_buffer_fifo (T : Type) [Inhabited T] (d : T) (n : Nat)
    (ops : List (BufOp T)) (hn : 0 < n) :
    (runBufOps (CircularBuffer.mk (List.replicate n d) 0 0) ops).2.2 =
      (runBufOps (CircularBuffer.mk (List.replicate n d) 0 0) ops).2.1.take
        (runBufOps (CircularBuffer.mk (List.replicate n d) 0 0) ops).2.2.length := by
  have hinv : BufInv (CircularBuffer.mk (List.replicate n d) 0 0) ([] : List T) 0 := by
    refine ⟨by simpa using hn, Nat.le_refl 0, by simpa using hn, ?_, ?_, ?_⟩
    · simp
    · simp
    · intro i h1 h2
      simp at h2
  simpa using runBufOps_fifo_aux ops (CircularBuffer.mk (List.replicate n d) 0 0) [] 0 hinv

/-- Witness for C7 on a concrete interleaving over a 4-slot buffer. -/
theorem circular_buffer_fifo_witness :
    0 < 4 ∧
    (runBufOps (CircularBuffer.mk (List.replicate 4 (0 : Nat)) 0 0)
        [BufOp.push 1, BufOp.push 2, BufOp.pop, BufOp.push 3,
         BufOp.pop, BufOp.pop, BufOp.pop]).2.2 =
      (runBufOps (CircularBuffer.mk (List.replicate 4 (0 : Nat)) 0 0)
        [BufOp.push 1, BufOp.push 2, BufOp.pop, BufOp.push 3,
         BufOp.pop, BufOp.pop, BufOp.pop]).2.1.take
        (runBufOps (CircularBuffer.mk (List.replicate 4 (0 : Nat)) 0 0)
          [BufOp.push 1, BufOp.push 2, BufOp.pop, BufOp.push 3,
           BufOp.pop, BufOp.pop, BufOp.pop]).2.2.length :=
  ⟨by norm_num,
   circular_buffer_fifo Nat 0 4
     [BufOp.push 1, BufOp.push 2, BufOp.pop, BufOp.push 3,
      BufOp.pop, BufOp.pop, BufOp.pop] (by norm_num)⟩

/-- C8: for `65533 ≤ n ≤ 65535`, `alloc(n)` passes the size checks
(rejecting only `n = 0` and `n > 65535`), rounds `n` up to 65536, the
rounded size wraps to 0 when narrowed to `u16` for the free-list search,
and on a heap with a free block (of any size `B`) it returns that block
whole as a non-null pointer whose payload `B` may be smaller than `n`. -/
theorem alloc_u16_wraparound (B C n F : Nat) (hB4 : 4 ≤ B) (hBmax : B < 65536)
    (hn : 65533 ≤ n) (hn2 : n ≤ 65535) :
    (n + psize - 1) / psize * psize = 65536 ∧
    ((n + psize - 1) / psize * psize) % 65536 = 0 ∧
    alloc (sm2 B C) (heap2 B C) 0 F = some (heap2 B C, 0) ∧
    alloc (sm2 B C) (heap2 B C) 65536 F = some (heap2 B C, 0) ∧
    alloc (sm2 B C) (heap2 B C) n (F + 1) =
      some (store16 (store16 (store32 (heap2 B C) 4 0) 8 0) 10 B, 12) ∧
    allocPtr (sm2 B C) (heap2 B C) n (F + 1) = 12 ∧
    load16 (allocMem (sm2 B C) (heap2 B C) n (F + 1)) 10 = B ∧
    load16 (allocMem (sm2 B C) (heap2 B C) n (F + 1)) 8 = 0 := by
  have hround : (n + psize - 1) / psize * psize = 65536 := by
    unfold psize
    omega
  have hm1_10 : load16 (store32 (heap2 B C) 4 0) 10 = B := by
    rw [load16_store32_ne _ 4 0 10 (by omega), heap2_size1 B C hBmax]
  have hm1_8 : load16 (store32 (heap2 B C) 4 0) 8 = 1 := by
    rw [load16_store32_ne _ 4 0 8 (by omega), heap2_prev1]
  have hmain : alloc (sm2 B C) (heap2 B C) n (F + 1) =
      some (store16 (store16 (store32 (heap2 B C) 4 0) 8 0) 10 B, 12) := by
    unfold alloc
    rw [if_neg (show ¬(n = 0) by omega), if_neg (show ¬(n > 65535) by omega)]
    simp only [hround]
    rw [show (65536 : Nat) % 65536 = 0 from rfl]
    rw [findFreeBlock_heap2 B C 0 F hBmax (by omega)]
    simp only
    rw [if_neg (show ¬((8 : Nat) = 0) by norm_num)]
    rw [show getNextPtr (sm2 B C) 0 = 4 from rfl]
    rw [show (8 : Nat) + 4 = 12 from rfl, show (8 : Nat) + 2 = 10 from rfl]
    rw [heap2_next1 B C hB4, hm1_10]
    rw [if_pos (show ((B : Int) - (65536 : Nat) < (fbsize : Nat)) by
      have : (B : Int) < 65536 := by exact_mod_cast hBmax
      norm_num [fbsize]
      omega)]
    rw [hm1_8]
    rfl
  refine ⟨hround, by rw [hround], rfl, rfl, hmain, ?_, ?_, ?_⟩
  · unfold allocPtr
    rw [hmain]
  · unfold allocMem
    rw [hmain]
    rw [load16_store16_eq]
    omega
  · unfold allocMem
    rw [hmain]
    rw [load16_store16_ne _ 10 B 8 (by omega), load16_store16_eq]

/-- Witness for C8: a 24-byte free block served whole for a request of
65533 bytes (payload 24 < 65533). -/
theorem alloc_u16_wraparound_witness :
    ((4 : Nat) ≤ 24 ∧ (24 : Nat) < 65536 ∧ (65533 : Nat) ≤ 65533 ∧
      (65533 : Nat) ≤ 65535) ∧
    allocPtr (sm2 24 4) (heap2 24 4) 65533 (2 + 1) = 12 ∧
    load16 (allocMem (sm2 24 4) (heap2 24 4) 65533 (2 + 1)) 10 = 24 :=
  ⟨⟨by norm_num, by norm_num, by norm_num, by norm_num⟩,
   (alloc_u16_wraparound 24 4 65533 2 (by norm_num) (by norm_num) (by norm_num)
     (by norm_num)).2.2.2.2.2.1,
   (alloc_u16_wraparound 24 4 65533 2 (by norm_num) (by norm_num) (by norm_num)
     (by norm_num)).2.2.2.2.2.2.1⟩

/-- Counterexample to C6 as stated: a free block of size 40 serving a
(rounded) request of 32.  The claim's condition `b.size - n - header ≥
size_of FreeBlock` is false (40 - 32 - 4 = 4 < 8), so the claim says
the block is consumed whole (busy size 40); the code instead splits:
the busy block gets size 32, a free block of size 4 with prev-size tag
33 (prev-size 32, free bit set) is written at 44 and becomes the head
of the free list. -/
theorem alloc_split_threshold_counterexample :
    ¬(fbsize ≤ 40 - 32 - bbsize) ∧
    allocPtr (sm2 40 4) (heap2 40 4) 32 3 = 12 ∧
    load16 (allocMem (sm2 40 4) (heap2 40 4) 32 3) 10 = 32 ∧
    ¬(load16 (allocMem (sm2 40 4) (heap2 40 4) 32 3) 10 = 40) ∧
    load16 (allocMem (sm2 40 4) (heap2 40 4) 32 3) 44 = 33 ∧
    load16 (allocMem (sm2 40 4) (heap2 40 4) 32 3) 46 = 4 ∧
    load32 (allocMem (sm2 40 4) (heap2 40 4) 32 3) 4 = 44 := by
  decide

/-- C6 (amended): `alloc(n)` served from free block `b` splits iff
`b.size - n ≥ size_of::<FreeBlock>()` (the code compares the whole
leftover against the free-block record, not the leftover after the
header).  When it splits, the front half becomes busy with size `n`, a
new free block of size `b.size - n - header` with prev-size `n` and the
free bit set is written after it, the following block's `prev_size_tag`
is fixed to the new remainder, and the remainder is reinserted into the
free list; otherwise the block is consumed whole and marked busy. -/
theorem alloc_split_behavior (B C n F : Nat)
    (hn4 : 4 ≤ n) (hnmul : n % 4 = 0) (hnB : n ≤ B)
    (hBmax : B ≤ 65532) (hBmul : B % 4 = 0) :
    (fbsize ≤ B - n →
      alloc (sm2 B C) (heap2 B C) n (F + 1) =
        some (store16 (store16 (store32 (store32 (store16 (store32 (store16
          (store16 (store32 (heap2 B C) 4 0) (12 + n) (n + 1)) (14 + n)
          (B - n - 4)) (16 + n) 0) (12 + B) (B - n - 4)) 4 (12 + n)) (16 + n) 0)
          8 0) 10 n, 12) ∧
      allocPtr (sm2 B C) (heap2 B C) n (F + 1) = 12 ∧
      load16 (allocMem (sm2 B C) (heap2 B C) n (F + 1)) 8 = 0 ∧
      load16 (allocMem (sm2 B C) (heap2 B C) n (F + 1)) 10 = n ∧
      load16 (allocMem (sm2 B C) (heap2 B C) n (F + 1)) (12 + n) = n + 1 ∧
      load16 (allocMem (sm2 B C) (heap2 B C) n (F + 1)) (14 + n) = B - n - 4 ∧
      load32 (allocMem (sm2 B C) (heap2 B C) n (F + 1)) (16 + n) = 0 ∧
      load16 (allocMem (sm2 B C) (heap2 B C) n (F + 1)) (12 + B) = B - n - 4 ∧
      load32 (allocMem (sm2 B C) (heap2 B C) n (F + 1)) 4 = 12 + n) ∧
    (B - n < fbsize →
      alloc (sm2 B C) (heap2 B C) n (F + 1) =
        some (store16 (store16 (store32 (heap2 B C) 4 0) 8 0) 10 B, 12) ∧
      allocPtr (sm2 B C) (heap2 B C) n (F + 1) = 12 ∧
      load16 (allocMem (sm2 B C) (heap2 B C) n (F + 1)) 10 = B ∧
      load16 (allocMem (sm2 B C) (heap2 B C) n (F + 1)) 8 = 0 ∧
      load32 (allocMem (sm2 B C) (heap2 B C) n (F + 1)) 4 = 0) := by
  have hB65536 : B < 65536 := by omega
  have hround : (n + psize - 1) / psize * psize = n := by
    unfold psize
    omega
  have hszmod : n % 65536 = n := by omega
  have hm1_10 : load16 (store32 (heap2 B C) 4 0) 10 = B := by
    rw [load16_store32_ne _ 4 0 10 (by omega), heap2_size1 B C hB65536]
  have hm1_8 : load16 (store32 (heap2 B C) 4 0) 8 = 1 := by
    rw [load16_store32_ne _ 4 0 8 (by omega), heap2_prev1]
  constructor
  · -- split branch
    intro hsplit
    simp only [fbsize] at hsplit
    have hm2_14 : load16 (store32 (store16 (store16 (store32 (heap2 B C) 4 0)
        (12 + n) (n + 1)) (14 + n) (B - n - 4)) (16 + n) 0) (14 + n) =
        B - n - 4 := by
      rw [load16_store32_ne _ (16 + n) 0 (14 + n) (by omega), load16_store16_eq]
      omega
    have hm2_12B : load16 (store32 (store16 (store16 (store32 (heap2 B C) 4 0)
        (12 + n) (n + 1)) (14 + n) (B - n - 4)) (16 + n) 0) (12 + B) = B := by
      rw [load16_store32_ne _ (16 + n) 0 (12 + B) (by omega),
        load16_store16_ne _ (14 + n) (B - n - 4) (12 + B) (by omega),
        load16_store16_ne _ (12 + n) (n + 1) (12 + B) (by omega),
        load16_store32_ne _ 4 0 (12 + B) (by omega),
        heap2_tag2 B C hB65536]
    have hm3_14 : load16 (store16 (store32 (store16 (store16 (store32 (heap2 B C)
        4 0) (12 + n) (n + 1)) (14 + n) (B - n - 4)) (16 + n) 0) (12 + B)
        (B - n - 4)) (14 + n) = B - n - 4 := by
      rw [load16_store16_ne _ (12 + B) (B - n - 4) (14 + n) (by omega), hm2_14]
    have hm3_4 : load32 (store16 (store32 (store16 (store16 (store32 (heap2 B C)
        4 0) (12 + n) (n + 1)) (14 + n) (B - n - 4)) (16 + n) 0) (12 + B)
        (B - n - 4)) 4 = 0 := by
      rw [load32_store16_ne _ (12 + B) (B - n - 4) 4 (by omega),
        load32_store32_ne _ (16 + n) 0 4 (by omega),
        load32_store16_ne _ (14 + n) (B - n - 4) 4 (by omega),
        load32_store16_ne _ (12 + n) (n + 1) 4 (by omega),
        load32_store32_eq]
    have hinstall : installFreeBlock (sm2 B C)
        (store16 (store32 (store16 (store16 (store32 (heap2 B C) 4 0) (12 + n)
          (n + 1)) (14 + n) (B - n - 4)) (16 + n) 0) (12 + B) (B - n - 4))
        (12 + n) (F + 1) =
        some (store32 (store32 (store16 (store32 (store16 (store16 (store32
          (heap2 B C) 4 0) (12 + n) (n + 1)) (14 + n) (B - n - 4)) (16 + n) 0)
          (12 + B) (B - n - 4)) 4 (12 + n)) (16 + n) 0) := by
      unfold installFreeBlock
      rw [show 12 + n + 2 = 14 + n from by omega, hm3_14]
      unfold findFreeBlock
      rw [show getNextPtr (sm2 B C) 0 = 4 from rfl, hm3_4]
      unfold findFreeLoop
      rw [if_neg (show ¬((0 : Nat) ≠ 0 ∧ _) from fun h => h.1 rfl)]
      simp only
      unfold installLoop
      rw [if_neg (show ¬((0 : Nat) ≠ 0 ∧ _) from fun h => h.1 rfl)]
      simp only
      rw [show getNextPtr (sm2 B C) 0 = 4 from rfl,
        show 12 + n + 4 = 16 + n from by omega]
    have hm4_8 : load16 (store32 (store32 (store16 (store32 (store16 (store16
        (store32 (heap2 B C) 4 0) (12 + n) (n + 1)) (14 + n) (B - n - 4))
        (16 + n) 0) (12 + B) (B - n - 4)) 4 (12 + n)) (16 + n) 0) 8 = 1 := by
      rw [load16_store32_ne _ (16 + n) 0 8 (by omega),
        load16_store32_ne _ 4 (12 + n) 8 (by omega),
        load16_store16_ne _ (12 + B) (B - n - 4) 8 (by omega),
        load16_store32_ne _ (16 + n) 0 8 (by omega),
        load16_store16_ne _ (14 + n) (B - n - 4) 8 (by omega),
        load16_store16_ne _ (12 + n) (n + 1) 8 (by omega), hm1_8]
    have hmain : alloc (sm2 B C) (heap2 B C) n (F + 1) =
        some (store16 (store16 (store32 (store32 (store16 (store32 (store16
          (store16 (store32 (heap2 B C) 4 0) (12 + n) (n + 1)) (14 + n)
          (B - n - 4)) (16 + n) 0) (12 + B) (B - n - 4)) 4 (12 + n)) (16 + n) 0)
          8 0) 10 n, 12) := by
      unfold alloc
      rw [if_neg (show ¬(n = 0) by omega), if_neg (show ¬(n > 65535) by omega)]
      simp only [hround]
      rw [hszmod, findFreeBlock_heap2 B C n F hB65536 hnB]
      simp only
      rw [if_neg (show ¬((8 : Nat) = 0) by norm_num)]
      rw [show getNextPtr (sm2 B C) 0 = 4 from rfl]
      rw [show (8 : Nat) + 4 = 12 from rfl, show (8 : Nat) + 2 = 10 from rfl]
      rw [heap2_next1 B C (by omega), hm1_10]
      rw [if_neg (show ¬((B : Int) - (n : Nat) < (fbsize : Nat)) by
        simp only [fbsize]
        push_cast
        omega)]
      simp only [bbsize]
      rw [show (8 : Nat) + 4 = 12 from rfl]
      rw [show 12 + n + 2 = 14 + n from by omega,
        show 12 + n + 4 = 16 + n from by omega]
      rw [hm2_14]
      rw [show 12 + n + (B - n - 4) + 4 = 12 + B from by omega]
      rw [show (sm2 B C).start = 4 from rfl, show (sm2 B C).size = 12 + B + C from rfl]
      rw [if_pos (show 12 + B < 4 + (12 + B + C) by omega)]
      rw [hm2_12B, show B % 2 = 0 from by omega]
      simp only [Nat.add_zero]
      rw [hinstall]
      simp only
      rw [hm4_8]
    refine ⟨hmain, ?_, ?_, ?_, ?_, ?_, ?_, ?_, ?_⟩
    · unfold allocPtr
      rw [hmain]
    · unfold allocMem
      rw [hmain]
      rw [load16_store16_ne _ 10 n 8 (by omega), load16_store16_eq]
    · unfold allocMem
      rw [hmain]
      rw [load16_store16_eq]
      omega
    · unfold allocMem
      rw [hmain]
      rw [load16_store16_ne _ 10 n (12 + n) (by omega),
        load16_store16_ne _ 8 0 (12 + n) (by omega),
        load16_store32_ne _ (16 + n) 0 (12 + n) (by omega),
        load16_store32_ne _ 4 (12 + n) (12 + n) (by omega),
        load16_store16_ne _ (12 + B) (B - n - 4) (12 + n) (by omega),
        load16_store32_ne _ (16 + n) 0 (12 + n) (by omega),
        load16_store16_ne _ (14 + n) (B - n - 4) (12 + n) (by omega),
        load16_store16_eq]
      omega
    · unfold allocMem
      rw [hmain]
      rw [load16_store16_ne _ 10 n (14 + n) (by omega),
        load16_store16_ne _ 8 0 (14 + n) (by omega),
        load16_store32_ne _ (16 + n) 0 (14 + n) (by omega),
        load16_store32_ne _ 4 (12 + n) (14 + n) (by omega),
        load16_store16_ne _ (12 + B) (B - n - 4) (14 + n) (by omega),
        hm2_14]
    · unfold allocMem
      rw [hmain]
      rw [load32_store16_ne _ 10 n (16 + n) (by omega),
        load32_store16_ne _ 8 0 (16 + n) (by omega),
        load32_store32_eq]
    · unfold allocMem
      rw [hmain]
      rw [load16_store16_ne _ 10 n (12 + B) (by omega),
        load16_store16_ne _ 8 0 (12 + B) (by omega),
        load16_store32_ne _ (16 + n) 0 (12 + B) (by omega),
        load16_store32_ne _ 4 (12 + n) (12 + B) (by omega),
        load16_store16_eq]
      omega
    · unfold allocMem
      rw [hmain]
      rw [load32_store16_ne _ 10 n 4 (by omega),
        load32_store16_ne _ 8 0 4 (by omega),
        load32_store32_ne _ (16 + n) 0 4 (by omega),
        load32_store32_eq]
      omega
  · -- whole-consume branch
    intro hwhole
    simp only [fbsize] at hwhole
    have hmain : alloc (sm2 B C) (heap2 B C) n (F + 1) =
        some (store16 (store16 (store32 (heap2 B C) 4 0) 8 0) 10 B, 12) := by
      unfold alloc
      rw [if_neg (show ¬(n = 0) by omega), if_neg (show ¬(n > 65535) by omega)]
      simp only [hround]
      rw [hszmod, findFreeBlock_heap2 B C n F hB65536 hnB]
      simp only
      rw [if_neg (show ¬((8 : Nat) = 0) by norm_num)]
      rw [show getNextPtr (sm2 B C) 0 = 4 from rfl]
      rw [show (8 : Nat) + 4 = 12 from rfl, show (8 : Nat) + 2 = 10 from rfl]
      rw [heap2_next1 B C (by omega), hm1_10]
      rw [if_pos (show ((B : Int) - (n : Nat) < (fbsize : Nat)) by
        simp only [fbsize]
        push_cast
        omega)]
      rw [hm1_8]
      rfl
    refine ⟨hmain, ?_, ?_, ?_, ?_⟩
    · unfold allocPtr
      rw [hmain]
    · unfold allocMem
      rw [hmain]
      rw [load16_store16_eq]
      omega
    · unfold allocMem
      rw [hmain]
      rw [load16_store16_ne _ 10 B 8 (by omega), load16_store16_eq]
    · unfold allocMem
      rw [hmain]
      rw [load32_store16_ne _ 10 B 4 (by omega),
        load32_store16_ne _ 8 0 4 (by omega),
        load32_store32_eq]

/-- Witness for the amended C6, both branches: request 32 from a
48-byte free block (splits, leftover 48 - 32 = 16 ≥ 8) and from a
36-byte free block (consumed whole, leftover 4 < 8). -/
theorem alloc_split_behavior_witness :
    ((4 : Nat) ≤ 32 ∧ (32 : Nat) % 4 = 0 ∧ (32 : Nat) ≤ 48 ∧
      (48 : Nat) ≤ 65532 ∧ (48 : Nat) % 4 = 0 ∧ fbsize ≤ 48 - 32) ∧
    ((32 : Nat) ≤ 36 ∧ (36 : Nat) ≤ 65532 ∧ (36 : Nat) % 4 = 0 ∧
      36 - 32 < fbsize) ∧
    (allocPtr (sm2 48 8) (heap2 48 8) 32 (5 + 1) = 12 ∧
     load16 (allocMem (sm2 48 8) (heap2 48 8) 32 (5 + 1)) 10 = 32 ∧
     load16 (allocMem (sm2 48 8) (heap2 48 8) 32 (5 + 1)) (12 + 32) = 32 + 1 ∧
     load16 (allocMem (sm2 48 8) (heap2 48 8) 32 (5 + 1)) (14 + 32) = 48 - 32 - 4 ∧
     load16 (allocMem (sm2 48 8) (heap2 48 8) 32 (5 + 1)) (12 + 48) = 48 - 32 - 4 ∧
     load32 (allocMem (sm2 48 8) (heap2 48 8) 32 (5 + 1)) 4 = 12 + 32) ∧
    (allocPtr (sm2 36 8) (heap2 36 8) 32 (5 + 1) = 12 ∧
     load16 (allocMem (sm2 36 8) (heap2 36 8) 32 (5 + 1)) 10 = 36 ∧
     load32 (allocMem (sm2 36 8) (heap2 36 8) 32 (5 + 1)) 4 = 0) :=
  ⟨⟨by norm_num, by norm_num, by norm_num, by norm_num, by norm_num,
    by norm_num [fbsize]⟩,
   ⟨by norm_num, by norm_num, by norm_num, by norm_num [fbsize]⟩,
   (fun h => ⟨h.2.1, h.2.2.2.1, h.2.2.2.2.1, h.2.2.2.2.2.1, h.2.2.2.2.2.2.2.1,
     h.2.2.2.2.2.2.2.2⟩)
     ((alloc_split_behavior 48 8 32 5 (by norm_num) (by norm_num) (by norm_num)
       (by norm_num) (by norm_num)).1 (by norm_num [fbsize])),
   (fun h => ⟨h.2.1, h.2.2.1, h.2.2.2.2⟩)
     ((alloc_split_behavior 36 8 32 5 (by norm_num) (by norm_num) (by norm_num)
       (by norm_num) (by norm_num)).2 (by norm_num [fbsize]))⟩

end BKernel
